import Mathlib

/-!
Verification of the recurring-schedule and conflict-resolution engine of the
Deep Work scheduler.

The embedding models JavaScript timestamps as natural numbers counting minutes
since the Unix epoch (1970-01-01T00:00), with the local timezone taken to be
UTC. All arithmetic the source performs on `Date` objects is at minute
granularity (durations are whole minutes, times of day are HH:MM), so this
loses nothing. A calendar date (the result of `setHours(0,0,0,0)` truncation,
or a `YYYY-MM-DD` string) is the day index `t / 1440`. `getDay()` is the day
of week (0 = Sunday; 1970-01-01 was a Thursday), and `getDate()` is the
day of month, computed by the standard Gregorian civil-from-days conversion.
-/

namespace DeepWork

/-- Minutes in a civil day. -/
def minutesPerDay : Nat := 1440

/-- Calendar-day index of a timestamp: models `setHours(0,0,0,0)` truncation
and `YYYY-MM-DD` keys. -/
def dateOf (t : Nat) : Nat := t / 1440

/-- Time of day in minutes after midnight. -/
def timeOfDay (t : Nat) : Nat := t % 1440

/-- Day of week of a day index, 0 = Sunday (JS `getDay()`); day 0 =
1970-01-01 was a Thursday (= 4). -/
def dowOfDay (day : Nat) : Nat := (day + 4) % 7

/-- A Gregorian calendar date. -/
structure CivilDate where
  year : Nat
  month : Nat
  day : Nat
deriving DecidableEq, Repr

/-- Gregorian civil date of a day index (days since 1970-01-01, non-negative),
by the standard days-to-civil conversion used by every calendar library and by
the JS `Date` internals. -/
def civilOfDay (day : Nat) : CivilDate :=
  let z := day + 719468
  let era := z / 146097
  let doe := z % 146097
  let yoe := (doe - doe / 1460 + doe / 36524 - doe / 146096) / 365
  let y := yoe + era * 400
  let doy := doe - (365 * yoe + yoe / 4 - yoe / 100)
  let mp := (5 * doy + 2) / 153
  let d := doy - (153 * mp + 2) / 5 + 1
  let m := if mp < 10 then mp + 3 else mp - 9
  { year := if m ≤ 2 then y + 1 else y, month := m, day := d }

/-- Day of month of a day index (JS `getDate()` after midnight truncation). -/
def domOfDay (day : Nat) : Nat := (civilOfDay day).day

/-- `repeatFrequency` of `BaseScheduleItem` (src/types.ts). -/
inductive RepeatFrequency
  | once
  | daily
  | weekly
  | monthly
deriving DecidableEq, Repr

/-- `SessionStatus` (src/types.ts). -/
inductive SessionStatus
  | pending
  | active
  | paused
  | completed
deriving DecidableEq, Repr

/-- `mood` component of `Feedback` (src/types.ts). -/
inductive Mood
  | focused
  | distracted
  | tired
deriving DecidableEq, Repr

/-- `Feedback` (src/types.ts). -/
structure Feedback where
  focusQuality : Nat
  mood : Option Mood
  interruptions : String
deriving DecidableEq, Repr

/-- One element of `pauses` (src/types.ts `BaseScheduleItem.pauses`): start and
end timestamps (the source stores ISO strings) and a reason. -/
structure Pause where
  startDate : Nat
  endDate : Nat
  reason : String
deriving DecidableEq, Repr

/-- `CompletionRecord` (src/types.ts): the source keys completions by a
`YYYY-MM-DD` string produced by `toLocalYYYYMMDD`; the key is modelled as the
calendar-day index, which is in bijection with those strings. -/
structure CompletionRecord where
  date : Nat
  feedback : Option Feedback
deriving DecidableEq, Repr

/-- `ScheduleItem` (src/types.ts): the `BaseScheduleItem` fields together with
the `status` and `feedback` fields shared by every variant. The kind-specific
payload (goal text, ritual checklist, chat history) plays no part in the
scheduling engine and is omitted. Optional fields absent at runtime
(`pauses`, `completions` undefined) are modelled as the empty list, matching
the source's `(x || [])` and `?.` readings; `endDate`/`repeatOn` keep their
explicit nullability. -/
structure ScheduleItem where
  id : String
  taskName : String
  durationMinutes : Nat
  startDate : Nat
  endDate : Option Nat
  repeatFrequency : RepeatFrequency
  repeatOn : Option (List Nat)
  isCancelled : Bool
  pauses : List Pause
  completions : List CompletionRecord
  status : SessionStatus
  feedback : Option Feedback
deriving DecidableEq, Repr

/-- Stable insertion of `x` into `l` after every element whose key is `≤` its
key: models the stable `Array.prototype.sort` with a numeric key comparator. -/
def insertKeyed {α : Type} (key : α → Nat) (x : α) : List α → List α
  | [] => [x]
  | y :: ys => if key y ≤ key x then y :: insertKeyed key x ys else x :: y :: ys

/-- Stable sort by a numeric key. -/
def sortKeyed {α : Type} (key : α → Nat) : List α → List α
  | [] => []
  | x :: xs => insertKeyed key x (sortKeyed key xs)

/-- The `endDate` cutoff inside `getTasksForDate` (src/App.tsx lines 637-644):
the item has ended when the probed day is strictly after `endDate`'s day. -/
def endedBefore (item : ScheduleItem) (checkDate : Nat) : Bool :=
  match item.endDate with
  | some e => decide (dateOf e < checkDate)
  | none => false

/-- The pause filter inside `getTasksForDate` (src/App.tsx lines 646-658):
the probed day lies in some pause interval, both endpoints truncated to
midnight and included. -/
def pausedOnDay (item : ScheduleItem) (checkDate : Nat) : Bool :=
  item.pauses.any fun pause =>
    decide (dateOf pause.startDate ≤ checkDate) && decide (checkDate ≤ dateOf pause.endDate)

/-- The filter body of `getTasksForDate` (src/App.tsx lines 628-679), taking
the already-truncated day index `checkDate`. The unreachable `.once` arm of
the final dispatch mirrors the source's `default: return false` (a `ONCE` item
has already returned at the dedicated equality test). -/
def occursOn (item : ScheduleItem) (checkDate : Nat) : Bool :=
  if item.isCancelled then false
  else if endedBefore item checkDate then false
  else if pausedOnDay item checkDate then false
  else if item.repeatFrequency == .once then dateOf item.startDate == checkDate
  else if dateOf item.startDate > checkDate then false
  else
    match item.repeatFrequency with
    | .once => false
    | .daily => true
    | .weekly =>
      match item.repeatOn with
      | some days => days.contains (dowOfDay checkDate)
      | none => false
    | .monthly => domOfDay (dateOf item.startDate) == domOfDay checkDate

/-- `getTasksForDate` (src/App.tsx lines 621-686): filter the schedule by
occurrence on `date`'s day, then sort ascending by the anchor's time of day
(`getHours() * 60 + getMinutes()`). -/
def getTasksForDate (schedule : List ScheduleItem) (date : Nat) : List ScheduleItem :=
  let checkDate := dateOf date
  sortKeyed (fun item => timeOfDay item.startDate) (schedule.filter fun item => occursOn item checkDate)

/-- `getEffectiveStartTime` (src/components/SessionScheduler.tsx lines
111-116): copy the candidate's date, set the time of day from the existing
item's anchor. -/
def getEffectiveStartTime (item : ScheduleItem) (date : Nat) : Nat :=
  dateOf date * 1440 + timeOfDay item.startDate

/-- The `tasksOnSameDay` filter body (src/components/SessionScheduler.tsx
lines 118-138): would this existing item occur on the candidate's calendar
date? Only the recurrence fields are consulted. The source's redundant early
`ONCE` test collapses into the `ONCE` switch case, which repeats the same
comparison. -/
def matchesCandidateDay (item : ScheduleItem) (newItemStart : Nat) : Bool :=
  match item.repeatFrequency with
  | .once => dateOf item.startDate == dateOf newItemStart
  | .daily => true
  | .weekly =>
    match item.repeatOn with
    | some days => days.contains (dowOfDay (dateOf newItemStart))
    | none => false
  | .monthly => domOfDay (dateOf item.startDate) == domOfDay (dateOf newItemStart)

/-- An existing item decorated with its effective occurrence interval on the
candidate's date (the source spreads `{...item, effectiveStart, effectiveEnd}`). -/
structure EffectiveTask where
  item : ScheduleItem
  effectiveStart : Nat
  effectiveEnd : Nat
deriving DecidableEq, Repr

/-- `tasksOnSameDay` (src/components/SessionScheduler.tsx lines 118-143):
filter to items matching the candidate's day, attach effective intervals,
sort ascending by `effectiveStart`. -/
def tasksOnSameDay (schedule : List ScheduleItem) (newItemStart : Nat) : List EffectiveTask :=
  sortKeyed (fun t => t.effectiveStart)
    ((schedule.filter fun item => matchesCandidateDay item newItemStart).map fun item =>
      let s := getEffectiveStartTime item newItemStart
      { item := item, effectiveStart := s, effectiveEnd := s + item.durationMinutes })

/-- The half-open interval overlap test (src/components/SessionScheduler.tsx
line 147): `aStart < bEnd && aEnd > bStart`. -/
def overlapsB (aStart aEnd bStart bEnd : Nat) : Bool :=
  decide (aStart < bEnd) && decide (aEnd > bStart)

/-- The greedy `while (!slotFound)` probe (src/components/SessionScheduler.tsx
lines 153-168), fuelled: advance the proposed start to the end of the first
interval overlapping `[p, p + duration)` until none does. The fuel argument
makes the recursion structural; `probe_terminates` shows `tasks.length + 1`
fuel always suffices. -/
def probe (tasks : List EffectiveTask) (duration : Nat) : Nat → Nat → Nat
  | 0, p => p
  | fuel + 1, p =>
    match tasks.find? (fun t => overlapsB p (p + duration) t.effectiveStart t.effectiveEnd) with
    | some t => probe tasks duration fuel t.effectiveEnd
    | none => p

/-- Result of the conflict check: the spec's `Ok | Conflict{withTaskName,
nextAvailable}`. -/
inductive SlotResult
  | ok (start : Nat)
  | conflict (withTaskName : String) (nextAvailable : Nat)
deriving DecidableEq, Repr

/-- The conflict-validation block of `handleSubmit`
(src/components/SessionScheduler.tsx lines 106-173): find the first existing
interval (in effective-start order) overlapping the candidate; if none, accept
the requested start; otherwise report that task's name and the probed next
available start. -/
def findSlot (schedule : List ScheduleItem) (newItemStart duration : Nat) : SlotResult :=
  let newItemEnd := newItemStart + duration
  let tasks := tasksOnSameDay schedule newItemStart
  match tasks.find? (fun t => overlapsB newItemStart newItemEnd t.effectiveStart t.effectiveEnd) with
  | none => .ok newItemStart
  | some t => .conflict t.item.taskName (probe tasks duration (tasks.length + 1) t.effectiveEnd)

/-- The scheduling form's inputs (src/unnamed/part_004 state, lines 15-29):
a date input (day index), a time input (minutes after midnight), an optional
end-date input (day index; the empty string is `none`), and the recurrence
selection. -/
structure CandidateForm where
  taskName : String
  durationMinutes : Nat
  startDay : Nat
  startTime : Nat
  endDay : Option Nat
  repeatFrequency : RepeatFrequency
  repeatOn : List Nat
deriving DecidableEq, Repr

/-- The end-date validation of `handleSubmit` (src/unnamed/part_004 lines
153-156 and 726-729): `endDate && new Date(endDate) < newItemStart`. A
`YYYY-MM-DD` string parses to midnight of that day, compared against the full
start timestamp. -/
def endDateInvalid (endDay : Option Nat) (newItemStart : Nat) : Bool :=
  match endDay with
  | none => false
  | some e => decide (e * 1440 < newItemStart)

/-- The item `handleSubmit` persists on acceptance (src/unnamed/part_004
`baseItemData`, lines 230-242): `completions` is absent at creation (read back
as the empty list), the opaque random `id` is passed in, and `endDate` is kept
only for recurring items. -/
def buildItem (c : CandidateForm) (freshId : String) : ScheduleItem :=
  { id := freshId
    taskName := c.taskName
    durationMinutes := c.durationMinutes
    startDate := c.startDay * 1440 + c.startTime
    endDate :=
      if c.repeatFrequency ≠ .once then (c.endDay.map fun e => e * 1440) else none
    repeatFrequency := c.repeatFrequency
    repeatOn := if c.repeatFrequency = .weekly then some (sortKeyed (fun d => d) c.repeatOn) else none
    isCancelled := false
    pauses := []
    completions := []
    status := .pending
    feedback := none }

/-- Outcome of a scheduling request. -/
inductive SubmitOutcome
  | pastDateError
  | invalidRangeError
  | conflict (withTaskName : String) (nextAvailable : Nat)
  | accepted (item : ScheduleItem)
deriving DecidableEq, Repr

/-- The scheduling-engine core of `handleSubmit` (src/unnamed/part_004 lines
655-833, sharing its conflict block with src/components/SessionScheduler.tsx):
past-date check, end-date range check, then the conflict resolver; on success
the new item is built and accepted. The form-completeness and settings
(availability/holiday) gates that precede these in the source are caller-side
preconditions outside the engine (spec section 6). -/
def handleSubmit (schedule : List ScheduleItem) (c : CandidateForm) (now : Nat)
    (freshId : String) : SubmitOutcome :=
  let newItemStart := c.startDay * 1440 + c.startTime
  if newItemStart < now then .pastDateError
  else if endDateInvalid c.endDay newItemStart then .invalidRangeError
  else
    match findSlot schedule newItemStart c.durationMinutes with
    | .conflict name next => .conflict name next
    | .ok _ => .accepted (buildItem c freshId)

/-- `handleDeleteItem` (src/App.tsx lines 722-734), restricted to the matched
item: a `ONCE` item is cancelled; a recurring item has its `endDate` set to
the current timestamp. -/
def handleDeleteItem (item : ScheduleItem) (now : Nat) : ScheduleItem :=
  if item.repeatFrequency == .once then { item with isCancelled := true }
  else { item with endDate := some now }

/-- `handleUnpauseItem` (src/App.tsx lines 743-756), restricted to the matched
item: if there is a last pause and its end lies in the future, shorten that
end to `now`; every other pause and field is untouched. -/
def handleUnpauseItem (item : ScheduleItem) (now : Nat) : ScheduleItem :=
  match item.pauses.getLast? with
  | none => item
  | some lastPause =>
    let newLast := if now < lastPause.endDate then { lastPause with endDate := now } else lastPause
    { item with pauses := item.pauses.dropLast ++ [newLast] }

/-- `handleFeedbackSubmit` (src/App.tsx lines 791-813), restricted to the
matched item — the spec's `recordCompletion`: append a completion record for
the completion date; a `ONCE` item additionally has its status set to
`COMPLETED`. -/
def handleFeedbackSubmit (item : ScheduleItem) (date : Nat) (feedback : Feedback) : ScheduleItem :=
  let newCompletion : CompletionRecord := { date := dateOf date, feedback := some feedback }
  let updatedCompletions := item.completions ++ [newCompletion]
  if item.repeatFrequency == .once then
    { item with completions := updatedCompletions, status := .completed }
  else
    { item with completions := updatedCompletions }

/-- The paused badge of `ScheduleListItem` (src/App.tsx lines 532-533): the
wall clock lies, inclusively, within the most recently added pause interval. -/
def isCurrentlyPaused (item : ScheduleItem) (now : Nat) : Bool :=
  match item.pauses.getLast? with
  | none => false
  | some lastPause => decide (lastPause.startDate ≤ now) && decide (now ≤ lastPause.endDate)

/-- The completion test of `ScheduleListItem` (src/App.tsx lines 535-539):
some completion record is keyed by the displayed date. -/
def isCompletedOn (item : ScheduleItem) (displayDate : Nat) : Bool :=
  item.completions.any fun c => c.date == dateOf displayDate

/-- `effectiveStatus` of `ScheduleListItem` (src/App.tsx line 541):
`COMPLETED` when a completion record exists for the displayed date, otherwise
the stored status field. -/
def effectiveStatus (item : ScheduleItem) (displayDate : Nat) : SessionStatus :=
  if isCompletedOn item displayDate then .completed else item.status

/-- The occurrence rule of the spec (section 4.1) as a proposition: not
cancelled; not strictly after the recurrence end; inside no pause interval
(closed); then the per-frequency rule anchored at the item's start day. -/
def OccursSpec (item : ScheduleItem) (d : Nat) : Prop :=
  item.isCancelled = false ∧
  (∀ e, item.endDate = some e → d ≤ dateOf e) ∧
  (∀ pause ∈ item.pauses, ¬ (dateOf pause.startDate ≤ d ∧ d ≤ dateOf pause.endDate)) ∧
  (match item.repeatFrequency with
   | .once => dateOf item.startDate = d
   | .daily => dateOf item.startDate ≤ d
   | .weekly => dateOf item.startDate ≤ d ∧ ∃ days, item.repeatOn = some days ∧ dowOfDay d ∈ days
   | .monthly => dateOf item.startDate ≤ d ∧ domOfDay (dateOf item.startDate) = domOfDay d)

/-- Start of an item's occurrence on a given day: the day's midnight plus the
anchor's time of day. -/
def occStart (item : ScheduleItem) (day : Nat) : Nat :=
  day * 1440 + timeOfDay item.startDate

/-- Two items both occur on `day` and their occurrence intervals overlap. -/
def OverlapsOnDay (a b : ScheduleItem) (day : Nat) : Prop :=
  occursOn a day = true ∧ occursOn b day = true ∧
  overlapsB (occStart a day) (occStart a day + a.durationMinutes)
    (occStart b day) (occStart b day + b.durationMinutes) = true

instance instDecidableOverlapsOnDay (a b : ScheduleItem) (day : Nat) :
    Decidable (OverlapsOnDay a b day) :=
  inferInstanceAs (Decidable (_ ∧ _ ∧ _))

/-- Termination measure of the probe loop: how many intervals still end
strictly after the proposed start. -/
def blockCount (tasks : List EffectiveTask) (p : Nat) : Nat :=
  tasks.countP fun t => decide (p < t.effectiveEnd)

/-- A neutral schedule item: a pending one-off deep-work session, the base the
concrete test items below are built from. -/
def baseItem : ScheduleItem :=
  { id := "base"
    taskName := "base"
    durationMinutes := 60
    startDate := 18 * 1440 + 540
    endDate := none
    repeatFrequency := .once
    repeatOn := none
    isCancelled := false
    pauses := []
    completions := []
    status := .pending
    feedback := none }

/-- Existing weekly item occurring Tuesdays at 09:00 for an hour, anchored on
day 12 (1970-01-13, a Tuesday). -/
def exTueWeekly : ScheduleItem :=
  { baseItem with
    id := "W"
    taskName := "W"
    startDate := 12 * 1440 + 540
    repeatFrequency := .weekly
    repeatOn := some [2] }

/-- Daily candidate requested for day 18 (1970-01-19, a Monday) at 09:00,
60 minutes, no end date. -/
def exDailyForm : CandidateForm :=
  { taskName := "C"
    durationMinutes := 60
    startDay := 18
    startTime := 540
    endDay := none
    repeatFrequency := .daily
    repeatOn := [] }

/-- The item the daily candidate becomes once accepted. -/
def exDailyItem : ScheduleItem := buildItem exDailyForm "C-id"

/-- Existing one-off item on day 18 at 11:00 for 30 minutes. -/
def exLateOnce : ScheduleItem :=
  { baseItem with
    id := "X"
    taskName := "X"
    startDate := 18 * 1440 + 660
    durationMinutes := 30 }

/-- A cancelled one-off item on day 18 at 09:00 for an hour. -/
def exCancelled : ScheduleItem :=
  { baseItem with
    id := "E"
    taskName := "E"
    isCancelled := true }

/-- Existing item A of the determinism scenario: weekly on Mondays,
09:00-10:30, anchored on day 11 (1970-01-12, a Monday). -/
def exA : ScheduleItem :=
  { baseItem with
    id := "A"
    taskName := "A"
    startDate := 11 * 1440 + 540
    durationMinutes := 90
    repeatFrequency := .weekly
    repeatOn := some [1] }

/-- Existing item B of the determinism scenario: weekly on Mondays,
10:30-11:00. -/
def exB : ScheduleItem :=
  { baseItem with
    id := "B"
    taskName := "B"
    startDate := 11 * 1440 + 630
    durationMinutes := 30
    repeatFrequency := .weekly
    repeatOn := some [1] }

/-- Monthly item anchored 2024-01-31 (day 19753) at 09:00. -/
def exMonthly31 : ScheduleItem :=
  { baseItem with
    id := "M"
    taskName := "M"
    startDate := 19753 * 1440 + 540
    repeatFrequency := .monthly }

/-- Daily item with two pause intervals: days 2-4 and days 10-11. -/
def exPausedTwice : ScheduleItem :=
  { baseItem with
    id := "P"
    taskName := "P"
    startDate := 540
    repeatFrequency := .daily
    pauses := [{ startDate := 2 * 1440, endDate := 4 * 1440, reason := "trip" },
               { startDate := 10 * 1440, endDate := 11 * 1440, reason := "rest" }] }

/-- Plain daily item with no completions. -/
def exDaily : ScheduleItem :=
  { baseItem with
    id := "D"
    taskName := "D"
    startDate := 540
    repeatFrequency := .daily }

/-- Daily item already end-dated at day 5. -/
def exEnded : ScheduleItem :=
  { baseItem with
    id := "F"
    taskName := "F"
    startDate := 540
    repeatFrequency := .daily
    endDate := some (5 * 1440) }

/-- Concrete feedback record. -/
def exFeedback : Feedback :=
  { focusQuality := 4, mood := some .focused, interruptions := "" }

/-- Daily candidate whose end date equals its start date (day 19800), start
time 09:00. -/
def exSameDayEndForm : CandidateForm :=
  { taskName := "S"
    durationMinutes := 60
    startDay := 19800
    startTime := 540
    endDay := some 19800
    repeatFrequency := .daily
    repeatOn := [] }

/-! Helper lemmas. -/

theorem mem_insertKeyed {α : Type} (key : α → Nat) (x a : α) :
    ∀ l : List α, a ∈ insertKeyed key x l ↔ a = x ∨ a ∈ l
  | [] => by simp [insertKeyed]
  | y :: ys => by
    simp only [insertKeyed]
    split <;> simp only [List.mem_cons, mem_insertKeyed key x a ys] <;> tauto

theorem mem_sortKeyed {α : Type} (key : α → Nat) (a : α) :
    ∀ l : List α, a ∈ sortKeyed key l ↔ a ∈ l
  | [] => Iff.rfl
  | x :: xs => by
    simp only [sortKeyed, mem_insertKeyed, mem_sortKeyed key a xs, List.mem_cons]

theorem endedBefore_false_iff (item : ScheduleItem) (d : Nat) :
    endedBefore item d = false ↔ ∀ e, item.endDate = some e → d ≤ dateOf e := by
  cases h : item.endDate <;> simp [endedBefore, h, Nat.not_lt]

theorem pausedOnDay_false_iff (item : ScheduleItem) (d : Nat) :
    pausedOnDay item d = false ↔
      ∀ pause ∈ item.pauses, ¬ (dateOf pause.startDate ≤ d ∧ d ≤ dateOf pause.endDate) := by
  rw [pausedOnDay, List.any_eq_false]
  refine forall_congr' fun pause => forall_congr' fun hmem => ?_
  simp [not_and, Nat.not_le]

theorem occursOn_iff (item : ScheduleItem) (d : Nat) :
    occursOn item d = true ↔ OccursSpec item d := by
  unfold occursOn OccursSpec
  rw [← endedBefore_false_iff, ← pausedOnDay_false_iff]
  cases hc : item.isCancelled
  · cases he : endedBefore item d
    · cases hp : pausedOnDay item d
      · simp only [Bool.false_eq_true, if_false, true_and, and_true, eq_self_iff_true]
        cases hf : item.repeatFrequency
        · simp [beq_iff_eq]
        · simp only [show (RepeatFrequency.daily == RepeatFrequency.once) = false from rfl,
            Bool.false_eq_true, if_false]
          split
          · simp; omega
          · simp; omega
        · simp only [show (RepeatFrequency.weekly == RepeatFrequency.once) = false from rfl,
            Bool.false_eq_true, if_false]
          split
          · next hgt => simp; omega
          · next hgt =>
            have hle : dateOf item.startDate ≤ d := Nat.not_lt.mp hgt
            cases hr : item.repeatOn <;> simp [hr, List.elem_iff, hle]
        · simp only [show (RepeatFrequency.monthly == RepeatFrequency.once) = false from rfl,
            Bool.false_eq_true, if_false]
          split
          · simp; omega
          · simp [beq_iff_eq]; omega
      · simp [hp]
    · simp [he]
  · simp [hc]

/-- C2: membership in `getTasksForDate` holds exactly when the item is in the
schedule and the occurrence rule holds for the probed day: not cancelled, not
strictly after the recurrence end date, inside no (closed) pause interval,
then for `ONCE` items equality with the anchor's day and for recurring items
the anchor bound plus the frequency rule; and, concretely, the `Monthly` item
anchored 2024-01-31 occurs on no day of April 2024 (no clamping). -/
theorem getTasksForDate_membership_spec :
    (∀ (schedule : List ScheduleItem) (item : ScheduleItem) (t : Nat),
      item ∈ getTasksForDate schedule t ↔ item ∈ schedule ∧ OccursSpec item (dateOf t))
    ∧ civilOfDay (dateOf exMonthly31.startDate) = { year := 2024, month := 1, day := 31 }
    ∧ civilOfDay 19814 = { year := 2024, month := 4, day := 1 }
    ∧ civilOfDay 19843 = { year := 2024, month := 4, day := 30 }
    ∧ ((List.range 30).all fun k => !occursOn exMonthly31 (19814 + k)) = true := by
  refine ⟨?_, by decide, by decide, by decide, by decide⟩
  intro schedule item t
  unfold getTasksForDate
  rw [mem_sortKeyed, List.mem_filter, occursOn_iff]

theorem countP_lt_of_mem {α : Type} (q r : α → Bool) (himp : ∀ x, q x = true → r x = true) :
    ∀ (l : List α) (t : α), t ∈ l → r t = true → q t = false → l.countP q < l.countP r
  | a :: l, t, ht, hr, hq => by
    rcases List.mem_cons.mp ht with rfl | ht2
    · rw [List.countP_cons, List.countP_cons, hq, hr]
      have hmono : l.countP q ≤ l.countP r := List.countP_mono_left fun x _ => himp x
      simpa using Nat.lt_succ_of_le hmono
    · rw [List.countP_cons, List.countP_cons]
      have hrec := countP_lt_of_mem q r himp l t ht2 hr hq
      have hone : (if q a = true then 1 else 0) ≤ (if r a = true then 1 else 0) := by
        by_cases h : q a = true
        · simp [h, himp a h]
        · simp [h]
      omega

theorem blockCount_le (tasks : List EffectiveTask) (p : Nat) :
    blockCount tasks p ≤ tasks.length :=
  List.countP_le_length _

theorem blockCount_decreases (tasks : List EffectiveTask) (duration p : Nat) (t : EffectiveTask)
    (hfind : tasks.find? (fun u => overlapsB p (p + duration) u.effectiveStart u.effectiveEnd)
      = some t) :
    blockCount tasks t.effectiveEnd < blockCount tasks p := by
  have hmem := List.mem_of_find?_eq_some hfind
  have hp := List.find?_some hfind
  have hlt : p < t.effectiveEnd := by
    simp only [overlapsB, Bool.and_eq_true, decide_eq_true_eq] at hp
    exact hp.1
  refine countP_lt_of_mem _ _ ?_ tasks t hmem ?_ ?_
  · intro x hx
    simp only [decide_eq_true_eq] at hx ⊢
    omega
  · simpa using hlt
  · simp

theorem probe_no_overlap (tasks : List EffectiveTask) (duration : Nat) :
    ∀ (fuel p : Nat), blockCount tasks p < fuel →
      tasks.find? (fun t => overlapsB (probe tasks duration fuel p)
        (probe tasks duration fuel p + duration) t.effectiveStart t.effectiveEnd) = none
  | 0, p, h => absurd h (Nat.not_lt_zero _)
  | fuel + 1, p, h => by
    cases hfind : tasks.find? (fun t => overlapsB p (p + duration) t.effectiveStart t.effectiveEnd) with
    | none => simpa [probe, hfind] using hfind
    | some t =>
      have hdec := blockCount_decreases tasks duration p t hfind
      have hfuel : blockCount tasks t.effectiveEnd < fuel := by omega
      simpa [probe, hfind] using probe_no_overlap tasks duration fuel t.effectiveEnd hfuel

theorem probe_fuel_independent (tasks : List EffectiveTask) (duration : Nat) :
    ∀ (fuel1 fuel2 p : Nat), blockCount tasks p < fuel1 → blockCount tasks p < fuel2 →
      probe tasks duration fuel1 p = probe tasks duration fuel2 p
  | 0, _, p, h1, _ => absurd h1 (Nat.not_lt_zero _)
  | _ + 1, 0, p, _, h2 => absurd h2 (Nat.not_lt_zero _)
  | fuel1 + 1, fuel2 + 1, p, h1, h2 => by
    cases hfind : tasks.find? (fun t => overlapsB p (p + duration) t.effectiveStart t.effectiveEnd) with
    | none => simp [probe, hfind]
    | some t =>
      have hdec := blockCount_decreases tasks duration p t hfind
      simp only [probe, hfind]
      exact probe_fuel_independent tasks duration fuel1 fuel2 t.effectiveEnd
        (by omega) (by omega)

/-- C10: the greedy probe loop over the day's sorted interval set, run with
fuel one more than the number of intervals (the fuel `findSlot` uses), already
reaches a fixed point: the returned proposed start overlaps no interval of the
set, and giving the loop any more fuel changes nothing — the source's
unbounded `while (!slotFound)` loop therefore terminates with this value for
every duration and every finite schedule. -/
theorem findSlot_probe_terminates :
    ∀ (schedule : List ScheduleItem) (newItemStart duration p : Nat),
      ((tasksOnSameDay schedule newItemStart).find? fun t =>
        overlapsB
          (probe (tasksOnSameDay schedule newItemStart) duration
            ((tasksOnSameDay schedule newItemStart).length + 1) p)
          (probe (tasksOnSameDay schedule newItemStart) duration
            ((tasksOnSameDay schedule newItemStart).length + 1) p + duration)
          t.effectiveStart t.effectiveEnd) = none
      ∧ ∀ k, probe (tasksOnSameDay schedule newItemStart) duration
            ((tasksOnSameDay schedule newItemStart).length + 1 + k) p
          = probe (tasksOnSameDay schedule newItemStart) duration
            ((tasksOnSameDay schedule newItemStart).length + 1) p := by
  intro schedule newItemStart duration p
  have hle := blockCount_le (tasksOnSameDay schedule newItemStart) p
  refine ⟨probe_no_overlap _ _ _ _ (by omega), fun k => ?_⟩
  exact probe_fuel_independent _ _ _ _ _ (by omega) (by omega)

/-- C1 (counterexample): a daily candidate on a Monday at 09:00 is accepted
against a schedule whose only item is a Tuesday-at-09:00 weekly item, because
the resolver only tests the candidate's own start date; yet on day 19 (the
following Tuesday) both occur and their occurrence intervals coincide. -/
theorem accepted_candidate_overlaps_later_occurrence :
    findSlot [exTueWeekly] (18 * 1440 + 540) 60 = .ok (18 * 1440 + 540)
    ∧ OverlapsOnDay exDailyItem exTueWeekly 19 := by
  exact ⟨by decide, by decide⟩

/-- C1 (amended): when `findSlot` accepts a candidate, the candidate's
interval on its own start date overlaps no existing item matching that date;
the guarantee does not extend to later occurrence dates of a recurring
candidate. -/
theorem findSlot_ok_clears_start_day
    (schedule : List ScheduleItem) (s dur t : Nat)
    (hok : findSlot schedule s dur = .ok t)
    (item : ScheduleItem) (hmem : item ∈ schedule)
    (hmatch : matchesCandidateDay item s = true) :
    overlapsB s (s + dur) (getEffectiveStartTime item s)
      (getEffectiveStartTime item s + item.durationMinutes) = false := by
  simp only [findSlot] at hok
  cases hfind : (tasksOnSameDay schedule s).find?
      (fun u => overlapsB s (s + dur) u.effectiveStart u.effectiveEnd) with
  | some t2 => rw [hfind] at hok; exact absurd hok (by simp)
  | none =>
    have hall := List.find?_eq_none.mp hfind
    have hin : EffectiveTask.mk item (getEffectiveStartTime item s)
        (getEffectiveStartTime item s + item.durationMinutes) ∈ tasksOnSameDay schedule s := by
      unfold tasksOnSameDay
      rw [mem_sortKeyed]
      exact List.mem_map_of_mem _ (List.mem_filter.mpr ⟨hmem, hmatch⟩)
    simpa using hall _ hin

theorem findSlot_ok_clears_start_day_witness :
    findSlot [exLateOnce] (18 * 1440 + 570) 60 = .ok (18 * 1440 + 570)
    ∧ overlapsB (18 * 1440 + 570) (18 * 1440 + 570 + 60)
        (getEffectiveStartTime exLateOnce (18 * 1440 + 570))
        (getEffectiveStartTime exLateOnce (18 * 1440 + 570) + exLateOnce.durationMinutes)
      = false :=
  ⟨by decide,
    findSlot_ok_clears_start_day [exLateOnce] (18 * 1440 + 570) 60 (18 * 1440 + 570)
      (by decide) exLateOnce (by decide) (by decide)⟩

/-- C3 (counterexample): a cancelled one-off item — which the Occurrence
Expander excludes from its own day, as the second conjunct shows — still
enters the conflict set and is reported as the blocking conflict for a
candidate at the same time. -/
theorem cancelled_existing_still_conflicts :
    exCancelled.isCancelled = true
    ∧ occursOn exCancelled (dateOf (18 * 1440 + 540)) = false
    ∧ findSlot [exCancelled] (18 * 1440 + 540) 60 = .conflict "E" (18 * 1440 + 600) :=
  ⟨rfl, by decide, by decide⟩

/-- C3 (amended): the conflict set applies no pause, cancel or end filtering
to the existing definitions: the day-matching test reads only the recurrence
fields (frequency, anchor, days of week), so changing an existing item's
cancellation flag, pause list, end date, completions or status never changes
whether it contributes an interval. -/
theorem matchesCandidateDay_ignores_lifecycle :
    ∀ (item : ScheduleItem) (b : Bool) (ps : List Pause) (ed : Option Nat)
      (cs : List CompletionRecord) (st : SessionStatus) (s : Nat),
      matchesCandidateDay
        { item with isCancelled := b, pauses := ps, endDate := ed, completions := cs, status := st }
        s
      = matchesCandidateDay item s := by
  intro item b ps ed cs st s
  cases item
  rfl

/-- C4: with existing items A (09:00-10:30) and B (10:30-11:00) on the
candidate's weekday, a 60-minute candidate at 09:30 is reported as a conflict
with A and suggested slot 11:00 (minute 660 of day 18), not 10:30; moreover
the overlap test is half-open, so exact abutment on either side is never a
conflict. -/
theorem conflict_scenario_deterministic :
    findSlot [exA, exB] (18 * 1440 + 570) 60 = .conflict "A" (18 * 1440 + 660)
    ∧ (∀ x y z : Nat, overlapsB x y y z = false)
    ∧ (∀ x y z : Nat, overlapsB z x y z = false) := by
  refine ⟨by decide, fun x y z => ?_, fun x y z => ?_⟩
  · simp [overlapsB]
  · simp [overlapsB]

/-- C5 (counterexample): day 3 lies inside the first pause interval of
`exPausedTwice`, yet the effective status for that date is `pending` (never
`paused`), and even the separate paused badge is off once the wall clock has
passed the last-added interval. -/
theorem paused_date_not_reported_paused :
    (∃ pause ∈ exPausedTwice.pauses,
      dateOf pause.startDate ≤ 3 ∧ (3 : Nat) ≤ dateOf pause.endDate)
    ∧ effectiveStatus exPausedTwice (3 * 1440) = .pending
    ∧ isCurrentlyPaused exPausedTwice (20 * 1440) = false :=
  ⟨by decide, by decide, by decide⟩

/-- C5 (amended): the effective status ignores pause intervals entirely — it
is `COMPLETED` exactly when a completion record is keyed by the displayed date
or the stored status field is already `COMPLETED` (for any item, not only
`ONCE` ones), and changing the pause list never changes it; the paused
indication is computed separately from the wall clock and only the most
recently added pause interval, inclusively at both ends. -/
theorem effectiveStatus_pause_badge_spec :
    ∀ (item : ScheduleItem) (d now : Nat) (ps : List Pause) (p : Pause),
      (effectiveStatus item d = .completed ↔
        (∃ c ∈ item.completions, c.date = dateOf d) ∨ item.status = .completed)
      ∧ effectiveStatus item d
        = (if ∃ c ∈ item.completions, c.date = dateOf d then .completed else item.status)
      ∧ effectiveStatus { item with pauses := ps } d = effectiveStatus item d
      ∧ isCurrentlyPaused { item with pauses := ps ++ [p] } now
        = (decide (p.startDate ≤ now) && decide (now ≤ p.endDate)) := by
  intro item d now ps p
  have hiff : (item.completions.any fun c => c.date == dateOf d) = true ↔
      ∃ c ∈ item.completions, c.date = dateOf d := by
    simp [List.any_eq_true]
  refine ⟨?_, ?_, rfl, ?_⟩
  · unfold effectiveStatus isCompletedOn
    split
    · next h =>
      simpa using Or.inl (hiff.mp h)
    · next h =>
      constructor
      · exact Or.inr
      · rintro (hc | hs)
        · exact absurd (hiff.mpr hc) h
        · exact hs
  · unfold effectiveStatus isCompletedOn
    split
    · next h => rw [if_pos (hiff.mp h)]
    · next h => rw [if_neg fun he => h (hiff.mpr he)]
  · show isCurrentlyPaused { item with pauses := ps ++ [p] } now = _
    unfold isCurrentlyPaused
    rw [show ({ item with pauses := ps ++ [p] } : ScheduleItem).pauses = ps ++ [p] from rfl,
      List.getLast?_concat]

/-- C6 (counterexample): recording a completion twice for the same calendar
day leaves two completion records keyed by that day — the operation appends
instead of upserting. -/
theorem recordCompletion_allows_duplicate_dates :
    ((handleFeedbackSubmit (handleFeedbackSubmit exDaily (100 * 1440) exFeedback)
        (100 * 1440) exFeedback).completions.countP fun c => c.date == 100) = 2 := by
  decide

/-- C6 (amended): `handleFeedbackSubmit` appends a completion record for the
completion date without replacing an existing one — the per-date count rises
by exactly one for that date and is unchanged for every other date — and a
`ONCE` item additionally has its status set to `COMPLETED`. -/
theorem recordCompletion_appends_spec :
    ∀ (item : ScheduleItem) (t : Nat) (fb : Feedback) (d : Nat),
      ((handleFeedbackSubmit item t fb).completions.countP fun c => c.date == d)
        = (item.completions.countP fun c => c.date == d)
          + (if d = dateOf t then 1 else 0)
      ∧ (handleFeedbackSubmit item t fb).completions
        = item.completions ++ [{ date := dateOf t, feedback := some fb }]
      ∧ (handleFeedbackSubmit item t fb).status
        = (if item.repeatFrequency = .once then .completed else item.status) := by
  intro item t fb d
  unfold handleFeedbackSubmit
  have hcount : ∀ l : List CompletionRecord,
      ((l ++ [CompletionRecord.mk (dateOf t) (some fb)]).countP fun c => c.date == d)
        = (l.countP fun c => c.date == d) + (if d = dateOf t then 1 else 0) := by
    intro l
    rw [List.countP_append]
    congr 1
    by_cases h : d = dateOf t
    · subst h
      simp
    · have h2 : ¬ (dateOf t = d) := fun he => h he.symm
      simp [h, h2]
  split
  · next h =>
    rw [beq_iff_eq] at h
    exact ⟨hcount _, rfl, by simp [h]⟩
  · next h =>
    rw [beq_iff_eq] at h
    exact ⟨hcount _, rfl, by simp [h]⟩

/-- C7 (counterexample): deleting the recurring item `exEnded`, whose end date
is day 5, at a later time (day 10) overwrites the end date with the later
timestamp — the end date is extended, not left at the minimum. -/
theorem handleDeleteItem_extends_end_date :
    exEnded.repeatFrequency ≠ .once
    ∧ exEnded.endDate = some (5 * 1440)
    ∧ 5 * 1440 < 10 * 1440
    ∧ (handleDeleteItem exEnded (10 * 1440)).endDate = some (10 * 1440) :=
  ⟨by decide, rfl, by decide, by decide⟩

/-- C7 (amended): deleting a recurring item sets its end date to the deletion
timestamp unconditionally, overwriting (and possibly extending) any stored end
date, while a `ONCE` item is cancelled instead; every other field is
untouched. -/
theorem handleDeleteItem_spec :
    ∀ (item : ScheduleItem) (now : Nat),
      (handleDeleteItem item now).endDate
        = (if item.repeatFrequency = .once then item.endDate else some now)
      ∧ (handleDeleteItem item now).isCancelled
        = (if item.repeatFrequency = .once then true else item.isCancelled)
      ∧ (handleDeleteItem item now).id = item.id
      ∧ (handleDeleteItem item now).taskName = item.taskName
      ∧ (handleDeleteItem item now).durationMinutes = item.durationMinutes
      ∧ (handleDeleteItem item now).startDate = item.startDate
      ∧ (handleDeleteItem item now).repeatFrequency = item.repeatFrequency
      ∧ (handleDeleteItem item now).repeatOn = item.repeatOn
      ∧ (handleDeleteItem item now).pauses = item.pauses
      ∧ (handleDeleteItem item now).completions = item.completions
      ∧ (handleDeleteItem item now).status = item.status := by
  intro item now
  unfold handleDeleteItem
  by_cases h : item.repeatFrequency = .once <;> simp [h]

/-- C8: `handleUnpauseItem` changes at most the end of the most recently
added pause interval — replacing it by `now` exactly when `now` is still
before it — and preserves every other field, every earlier pause interval
(even one containing `now`), the pause count, and the last interval's start
and reason. -/
theorem handleUnpauseItem_frame :
    ∀ (item : ScheduleItem) (now : Nat),
      (handleUnpauseItem item now).id = item.id
      ∧ (handleUnpauseItem item now).taskName = item.taskName
      ∧ (handleUnpauseItem item now).durationMinutes = item.durationMinutes
      ∧ (handleUnpauseItem item now).startDate = item.startDate
      ∧ (handleUnpauseItem item now).endDate = item.endDate
      ∧ (handleUnpauseItem item now).repeatFrequency = item.repeatFrequency
      ∧ (handleUnpauseItem item now).repeatOn = item.repeatOn
      ∧ (handleUnpauseItem item now).isCancelled = item.isCancelled
      ∧ (handleUnpauseItem item now).completions = item.completions
      ∧ (handleUnpauseItem item now).status = item.status
      ∧ (handleUnpauseItem item now).pauses.length = item.pauses.length
      ∧ (handleUnpauseItem item now).pauses.dropLast = item.pauses.dropLast
      ∧ (handleUnpauseItem item now).pauses.getLast?
        = item.pauses.getLast?.map fun pause =>
            if now < pause.endDate then { pause with endDate := now } else pause := by
  intro item now
  unfold handleUnpauseItem
  cases hl : item.pauses.getLast? with
  | none => simp [hl]
  | some p =>
    have hne : item.pauses ≠ [] := by
      intro hnil
      rw [hnil] at hl
      exact Option.noConfusion hl
    have hpos : 0 < item.pauses.length := List.length_pos.mpr hne
    refine ⟨rfl, rfl, rfl, rfl, rfl, rfl, rfl, rfl, rfl, rfl, ?_, ?_, ?_⟩
    · show (item.pauses.dropLast ++ [_]).length = item.pauses.length
      rw [List.length_append, List.length_dropLast]
      simp
      omega
    · show (item.pauses.dropLast ++ [_]).dropLast = item.pauses.dropLast
      exact List.dropLast_concat
    · show (item.pauses.dropLast ++ [_]).getLast? = _
      simp [List.getLast?_concat, hl]

/-- C9 (counterexample): a candidate whose end date equals its start date
(day 19800) with start time 09:00 is rejected with the invalid-range error,
although the claim says an end date equal to the start's calendar date is
always accepted. -/
theorem equal_end_date_rejected :
    exSameDayEndForm.endDay = some exSameDayEndForm.startDay
    ∧ handleSubmit [] exSameDayEndForm 0 "S-id" = .invalidRangeError :=
  ⟨rfl, by decide⟩

/-- C9 (amended): the end-date validation compares midnight of the end date
against the full candidate start timestamp, so it fails exactly when the end
date is strictly before the start's calendar date, or equal to it while the
start time is after midnight; an absent end date never fails. -/
theorem endDateInvalid_characterization :
    ∀ (e s : Nat),
      (endDateInvalid (some e) s = true ↔
        e < dateOf s ∨ (e = dateOf s ∧ 0 < timeOfDay s))
      ∧ endDateInvalid none s = false := by
  intro e s
  refine ⟨?_, rfl⟩
  unfold endDateInvalid dateOf timeOfDay
  simp only [decide_eq_true_eq]
  omega

end DeepWork
